import Mathlib

/-!
Shallow embedding of `src/utils.py` of the `auc-roc-unbalanced` repository.

Real numbers are modelled as rationals.  NumPy's legacy global random state
is modelled explicitly as a `GlobalRng` value threaded through the sampler:
`np.random.seed s` replaces the state by `⟨s, 0⟩`, and drawing `n` normal
variates with parameters `(loc, scale)` consumes the next `n` values of an
abstract standard-normal stream `gauss : ℤ → ℕ → ℚ` (indexed by the seed and
the position in the stream), returning `loc + scale * gauss seed i` for each
position, exactly as NumPy produces standard draws and scales them.
Code that can raise a Python exception returns `Except Err`, and exception
propagation is the `Except` bind.
-/

/-- Error kinds surfaced by the embedded code: `InvalidParameter` models the
NumPy `ValueError` raised for a negative `size` argument, `DegenerateLabelSet`
models the sklearn `ValueError` raised by `roc_auc_score` when `y_true` holds a
single class, and `UnboundLocal` models the Python `UnboundLocalError` raised
when the `return` of `get_curves` evaluates a `min_*`/`max_*` local variable
that was never assigned. -/
inductive Err where
  | InvalidParameter
  | DegenerateLabelSet
  | UnboundLocal
  deriving DecidableEq, Repr

/-- Process-wide NumPy random state: the seed last installed by
`np.random.seed` and the number of standard-normal variates consumed since. -/
structure GlobalRng where
  seed : ℤ
  counter : ℕ
  deriving DecidableEq, Repr

theorem except_bind_ok {ε α β : Type} (a : α) (f : α → Except ε β) :
    Except.bind (Except.ok a) f = f a := rfl

theorem except_bind_error {ε α β : Type} (e : ε) (f : α → Except ε β) :
    Except.bind (Except.error e) f = Except.error e := rfl

/-- Python `int(...)` applied to a real value: truncation toward zero, which
is the ceiling for negative arguments and the floor otherwise. -/
def pyInt (q : ℚ) : ℤ := if q < 0 then ⌈q⌉ else ⌊q⌋

/-- Model of `np.random.normal(loc=loc, scale=scale, size=size)` against the
global state `g`: fails like NumPy when `size` is negative, otherwise returns
`size` draws `loc + scale * z` where `z` ranges over the next standard-normal
stream values of the current seed, advancing the global counter. -/
def np_normal (gauss : ℤ → ℕ → ℚ) (loc scale : ℚ) (size : ℤ) (g : GlobalRng) :
    Except Err (List ℚ × GlobalRng) :=
  if size < 0 then .error .InvalidParameter
  else
    .ok (((List.range size.toNat).map fun i => loc + scale * gauss g.seed (g.counter + i)),
      ⟨g.seed, g.counter + size.toNat⟩)

/-- Embedding of `get_distributions(n_objects, positive_class_weight, seed, loc)`
from `src/utils.py` lines 23–38: seeds the global generator (`np.random.seed`),
draws `int(n_objects * (1 - positive_class_weight))` negatives from
normal(0, 5) and `int(n_objects * positive_class_weight)` positives from
normal(loc, 5), and returns the pair of score lists together with the mutated
global state. -/
def get_distributions (gauss : ℤ → ℕ → ℚ) (n_objects : ℕ)
    (positive_class_weight : ℚ) (seed : ℤ) (loc : ℚ) (_g : GlobalRng) :
    Except Err ((List ℚ × List ℚ) × GlobalRng) :=
  Except.bind (np_normal gauss 0 5 (pyInt ((n_objects : ℚ) * (1 - positive_class_weight)))
      ({ seed := seed, counter := 0 } : GlobalRng)) fun lg =>
    Except.bind (np_normal gauss loc 5 (pyInt ((n_objects : ℚ) * positive_class_weight))
        lg.2) fun rg =>
      .ok ((lg.1, rg.1), rg.2)

/-- Label assembly `[0] * len(ld) + [1] * len(rd)` used by both `get_metrics`
(line 52) and the loop body of `get_curves` (line 80). -/
def sampleLabels (data : List ℚ × List ℚ) : List ℕ :=
  List.replicate data.1.length 0 ++ List.replicate data.2.length 1

/-- Score assembly `np.concatenate([ld, rd])` used by both `get_metrics`
(line 53) and the loop body of `get_curves` (line 81). -/
def sampleScores (data : List ℚ × List ℚ) : List ℚ :=
  data.1 ++ data.2

/-- Contribution of one (positive, negative) score pair to the rank statistic:
1 if the positive outranks the negative, 1/2 on a tie, 0 otherwise. -/
def pairScore (p q : ℚ) : ℚ :=
  if q < p then 1 else if p = q then 1 / 2 else 0

/-- Modelled from the spec: `sklearn.metrics.roc_auc_score` (an external
library call of `src/utils.py`, not part of the repository source).  Per the
spec, AUC-ROC is the probability that a uniformly random positive-labeled
score exceeds a uniformly random negative-labeled score, ties grouped (counted
1/2); when all labels are identical the call fails (`DegenerateLabelSet`). -/
def roc_auc_score (y : List ℕ) (s : List ℚ) : Except Err ℚ :=
  let pos := ((y.zip s).filter fun t => t.1 == 1).map Prod.snd
  let neg := ((y.zip s).filter fun t => t.1 == 0).map Prod.snd
  if pos.isEmpty || neg.isEmpty then .error .DegenerateLabelSet
  else
    .ok ((pos.map fun p => (neg.map fun q => pairScore p q).sum).sum
      / ((pos.length : ℚ) * (neg.length : ℚ)))

/-- Insertion into a strictly descending list, dropping duplicates; used to
enumerate the distinct score thresholds from highest to lowest. -/
def insertDesc (x : ℚ) : List ℚ → List ℚ
  | [] => [x]
  | y :: ys => if y < x then x :: y :: ys else if x = y then y :: ys else y :: insertDesc x ys

/-- Distinct values of a score list, sorted in descending order. -/
def thresholdsDesc (s : List ℚ) : List ℚ :=
  s.foldr insertDesc []

/-- Threshold sweep for average precision: walks the distinct thresholds from
highest to lowest, accumulating `(recall - previousRecall) * precision`. -/
def apAux (pos neg : List ℚ) (tot : ℕ) : List ℚ → ℚ → ℚ → ℚ
  | [], _, acc => acc
  | t :: ts, prevR, acc =>
    let tp : ℕ := (pos.filter fun p => decide (t ≤ p)).length
    let fp : ℕ := (neg.filter fun q => decide (t ≤ q)).length
    apAux pos neg tot ts ((tp : ℚ) / (tot : ℚ))
      (acc + (((tp : ℚ) / (tot : ℚ)) - prevR) * ((tp : ℚ) / ((tp : ℚ) + (fp : ℚ))))

/-- Modelled from the spec: `sklearn.metrics.average_precision_score` (an
external library call of `src/utils.py`, not part of the repository source).
Per the spec, average precision sums `precision(k) * Δrecall(k)` over the
distinct threshold steps ordered by descending threshold. -/
def average_precision_score (y : List ℕ) (s : List ℚ) : ℚ :=
  let pos := ((y.zip s).filter fun t => t.1 == 1).map Prod.snd
  let neg := ((y.zip s).filter fun t => t.1 == 0).map Prod.snd
  apAux pos neg pos.length (thresholdsDesc s) 0 0

/-- Embedding of `get_metrics(data)` from `src/utils.py` lines 41–55: builds
the labels and concatenated scores and returns the pair of AUC values;
`roc_auc_score` is evaluated first, so its exception surfaces first, exactly
as in the Python tuple expression on line 55. -/
def get_metrics (data : List ℚ × List ℚ) : Except Err (ℚ × ℚ) :=
  Except.bind (roc_auc_score (sampleLabels data) (sampleScores data)) fun a =>
    .ok (a, average_precision_score (sampleLabels data) (sampleScores data))

/-- The fixed 20-element seed panel of `src/utils.py` line 7. -/
def seeds : List ℤ :=
  [978, 672, 821, 445, 488, 449, 753, 962, 874, 287,
   257, 598, 100, 136, 305, 376, 548, 229, 265, 425]

/-- The scalar part of the running sweep output, the dictionary
`out = \x7b'ROC': \x7b'min': None, 'max': 0.0005\x7d, 'PR': ...\x7d` of
`get_curves` lines 71–74; `none` models Python `None`. -/
structure SweepOut where
  rocMin : Option ℚ
  rocMax : ℚ
  prMin : Option ℚ
  prMax : ℚ
  deriving DecidableEq, Repr

/-- The full local state of the `get_curves` loop: the `out` dictionary, the
four curve locals (`none` models a Python local that is not yet bound), and
the process-wide random state as mutated by the per-seed sampling. -/
structure SweepSt (C : Type) where
  out : SweepOut
  minRocCurve : Option C
  minPrCurve : Option C
  maxRocCurve : Option C
  maxPrCurve : Option C
  rng : GlobalRng
  deriving DecidableEq, Repr

/-- Everything one iteration of the `get_curves` loop computes from its seed:
the two AUC values, the two curves (of abstract curve type `C`), and the
global random state left behind by `get_distributions`. -/
structure SeedRun (C : Type) where
  auc : ℚ
  ap : ℚ
  rc : C
  pc : C
  rng : GlobalRng
  deriving DecidableEq, Repr

/-- Initial sweep state (`get_curves` lines 71–74): both `min` trackers are
`None`, both `max` trackers are the floor `0.0005 = 1/2000`, and no curve
local is bound yet. -/
def sweepInit {C : Type} (g : GlobalRng) : SweepSt C :=
  { out := { rocMin := none, rocMax := 1/2000, prMin := none, prMax := 1/2000 },
    minRocCurve := none, minPrCurve := none, maxRocCurve := none, maxPrCurve := none,
    rng := g }

/-- Condition of the min update (line 89):
`out['ROC']['min'] is None or auc_roc < out['ROC']['min']`. -/
def wantMin (cur : Option ℚ) (a : ℚ) : Bool :=
  match cur with
  | none => true
  | some m => decide (a < m)

/-- The min-side update block of `get_curves` (lines 89–93). -/
def minUpd {C : Type} (st : SweepSt C) (r : SeedRun C) : SweepSt C :=
  if wantMin st.out.rocMin r.auc then
    { st with
        out := { st.out with rocMin := some r.auc, prMin := some r.ap }
        minRocCurve := some r.rc
        minPrCurve := some r.pc }
  else st

/-- The max-side update block of `get_curves` (lines 94–98). -/
def maxUpd {C : Type} (st : SweepSt C) (r : SeedRun C) : SweepSt C :=
  if st.out.rocMax < r.auc then
    { st with
        out := { st.out with rocMax := r.auc, prMax := r.ap }
        maxRocCurve := some r.rc
        maxPrCurve := some r.pc }
  else st

/-- One iteration's state update: the min block, then the max block (which in
the source reads `out['ROC']['max']`, a field the min block never writes),
then the global random state left by this iteration's sampling. -/
def updateSweep {C : Type} (st : SweepSt C) (r : SeedRun C) : SweepSt C :=
  { maxUpd (minUpd st r) r with rng := r.rng }

/-- One iteration of the `get_curves` loop (lines 76–98) for one seed: sample
via `get_distributions`, assemble labels and scores, compute the curves (the
external `roc_curve` and `precision_recall_curve` are abstracted as the
function parameters `rF` and `pF` into an abstract curve type `C`), compute
both AUC values, and perform the two conditional updates. -/
def sweep_step {C : Type} (gauss : ℤ → ℕ → ℚ) (rF pF : List ℕ → List ℚ → C)
    (n_objects : ℕ) (class_weight loc : ℚ) (st : SweepSt C) (seed : ℤ) :
    Except Err (SweepSt C) :=
  Except.bind (get_distributions gauss n_objects class_weight seed loc st.rng) fun pg =>
    Except.bind (roc_auc_score (sampleLabels pg.1) (sampleScores pg.1)) fun a =>
      .ok (updateSweep st
        ⟨a, average_precision_score (sampleLabels pg.1) (sampleScores pg.1),
          rF (sampleLabels pg.1) (sampleScores pg.1),
          pF (sampleLabels pg.1) (sampleScores pg.1), pg.2⟩)

/-- The per-seed sample-and-evaluate step of the sweep, as a function of the
seed alone: what one iteration of the `get_curves` loop computes before it
touches the trackers.  Its result does not depend on the incoming global
random state, because `get_distributions` reseeds first. -/
def seedEval {C : Type} (gauss : ℤ → ℕ → ℚ) (rF pF : List ℕ → List ℚ → C)
    (n_objects : ℕ) (class_weight loc : ℚ) (seed : ℤ) : Except Err (SeedRun C) :=
  Except.bind (get_distributions gauss n_objects class_weight seed loc ⟨0, 0⟩) fun pg =>
    Except.bind (roc_auc_score (sampleLabels pg.1) (sampleScores pg.1)) fun a =>
      .ok ⟨a, average_precision_score (sampleLabels pg.1) (sampleScores pg.1),
        rF (sampleLabels pg.1) (sampleScores pg.1),
        pF (sampleLabels pg.1) (sampleScores pg.1), pg.2⟩

/-- The `for seed in seeds:` loop of `get_curves` (lines 76–98) over an
explicit panel, threading the loop state; any exception aborts the sweep. -/
def get_curves_aux {C : Type} (gauss : ℤ → ℕ → ℚ) (rF pF : List ℕ → List ℚ → C)
    (n_objects : ℕ) (class_weight loc : ℚ) : List ℤ → SweepSt C → Except Err (SweepSt C)
  | [], st => .ok st
  | s :: rest, st =>
    Except.bind (sweep_step gauss rF pF n_objects class_weight loc st s) fun st2 =>
      get_curves_aux gauss rF pF n_objects class_weight loc rest st2

/-- The record returned by a successful `get_curves` run: the `out`
dictionary and the four retained curves, in the order of the Python return
tuple (min before max, ROC curves before PR curves). -/
structure CurvesResult (C : Type) where
  out : SweepOut
  minRoc : C
  maxRoc : C
  minPr : C
  maxPr : C
  deriving DecidableEq, Repr

/-- The `return` statement of `get_curves` (lines 100–104): reading each
curve local in the order of the return tuple raises `UnboundLocalError` at
the first one that was never assigned. -/
def finishCurves {C : Type} (st : SweepSt C) : Except Err (CurvesResult C) :=
  match st.minRocCurve with
  | none => .error .UnboundLocal
  | some mrc =>
    match st.maxRocCurve with
    | none => .error .UnboundLocal
    | some xrc =>
      match st.minPrCurve with
      | none => .error .UnboundLocal
      | some mpc =>
        match st.maxPrCurve with
        | none => .error .UnboundLocal
        | some xpc => .ok ⟨st.out, mrc, xrc, mpc, xpc⟩

/-- Embedding of `get_curves(n_objects, class_weight, loc)` over an explicit
seed panel, starting from the ambient global random state `g0`. -/
def get_curves_panel {C : Type} (gauss : ℤ → ℕ → ℚ) (rF pF : List ℕ → List ℚ → C)
    (n_objects : ℕ) (class_weight loc : ℚ) (panel : List ℤ) (g0 : GlobalRng) :
    Except Err (CurvesResult C) :=
  Except.bind (get_curves_aux gauss rF pF n_objects class_weight loc panel (sweepInit g0))
    fun st => finishCurves st

/-- Embedding of `get_curves` from `src/utils.py` lines 58–104: the sweep
over the fixed panel `seeds`. -/
def get_curves {C : Type} (gauss : ℤ → ℕ → ℚ) (rF pF : List ℕ → List ℚ → C)
    (n_objects : ℕ) (class_weight loc : ℚ) (g0 : GlobalRng) :
    Except Err (CurvesResult C) :=
  get_curves_panel gauss rF pF n_objects class_weight loc seeds g0

example : pyInt (-1/2) = 0 := by norm_num [pyInt]
example : pyInt (21/2) = 10 := by norm_num [pyInt]
example : get_distributions (fun _ _ => 0) 2 (1/2) 7 10 ⟨0, 0⟩
    = .ok (([0], [10]), ⟨7, 2⟩) := by
  norm_num [get_distributions, np_normal, pyInt, except_bind_ok, List.range_succ]
example : get_metrics ([0], [10]) = .ok (1, 1) := by
  norm_num [get_metrics, roc_auc_score, sampleLabels, sampleScores, pairScore,
    average_precision_score, thresholdsDesc, insertDesc, apAux, except_bind_ok,
    List.filter_cons, List.filter_nil]
example : get_metrics ([0], [0]) = .ok (1/2, 1/2) := by
  norm_num [get_metrics, roc_auc_score, sampleLabels, sampleScores, pairScore,
    average_precision_score, thresholdsDesc, insertDesc, apAux, except_bind_ok,
    List.filter_cons, List.filter_nil]
example : get_metrics ([1, 2], []) = .error .DegenerateLabelSet := by
  norm_num [get_metrics, roc_auc_score, sampleLabels, sampleScores, except_bind_error,
    List.filter_cons, List.filter_nil, List.replicate_succ, List.zip_cons_cons,
    List.zip_nil_right, List.zip_nil_left]

/-! Helper lemmas on the sampler and on one sweep iteration. -/

/-- The result of `get_distributions` does not depend on the incoming global
random state, because the call begins by reseeding the generator. -/
theorem get_distributions_state_irrel (gauss : ℤ → ℕ → ℚ) (n_objects : ℕ)
    (positive_class_weight : ℚ) (seed : ℤ) (loc : ℚ) (g g2 : GlobalRng) :
    get_distributions gauss n_objects positive_class_weight seed loc g =
      get_distributions gauss n_objects positive_class_weight seed loc g2 := rfl

theorem minUpd_rocMax {C : Type} (st : SweepSt C) (r : SeedRun C) :
    (minUpd st r).out.rocMax = st.out.rocMax := by
  unfold minUpd; split <;> rfl

theorem minUpd_prMax {C : Type} (st : SweepSt C) (r : SeedRun C) :
    (minUpd st r).out.prMax = st.out.prMax := by
  unfold minUpd; split <;> rfl

theorem minUpd_maxRocCurve {C : Type} (st : SweepSt C) (r : SeedRun C) :
    (minUpd st r).maxRocCurve = st.maxRocCurve := by
  unfold minUpd; split <;> rfl

theorem minUpd_maxPrCurve {C : Type} (st : SweepSt C) (r : SeedRun C) :
    (minUpd st r).maxPrCurve = st.maxPrCurve := by
  unfold minUpd; split <;> rfl

theorem minUpd_rocMin {C : Type} (st : SweepSt C) (r : SeedRun C) :
    (minUpd st r).out.rocMin
      = if wantMin st.out.rocMin r.auc then some r.auc else st.out.rocMin := by
  unfold minUpd; split <;> rfl

theorem minUpd_prMin {C : Type} (st : SweepSt C) (r : SeedRun C) :
    (minUpd st r).out.prMin
      = if wantMin st.out.rocMin r.auc then some r.ap else st.out.prMin := by
  unfold minUpd; split <;> rfl

theorem minUpd_minRocCurve {C : Type} (st : SweepSt C) (r : SeedRun C) :
    (minUpd st r).minRocCurve
      = if wantMin st.out.rocMin r.auc then some r.rc else st.minRocCurve := by
  unfold minUpd; split <;> rfl

theorem minUpd_minPrCurve {C : Type} (st : SweepSt C) (r : SeedRun C) :
    (minUpd st r).minPrCurve
      = if wantMin st.out.rocMin r.auc then some r.pc else st.minPrCurve := by
  unfold minUpd; split <;> rfl

theorem maxUpd_rocMin {C : Type} (st : SweepSt C) (r : SeedRun C) :
    (maxUpd st r).out.rocMin = st.out.rocMin := by
  unfold maxUpd; split <;> rfl

theorem maxUpd_prMin {C : Type} (st : SweepSt C) (r : SeedRun C) :
    (maxUpd st r).out.prMin = st.out.prMin := by
  unfold maxUpd; split <;> rfl

theorem maxUpd_minRocCurve {C : Type} (st : SweepSt C) (r : SeedRun C) :
    (maxUpd st r).minRocCurve = st.minRocCurve := by
  unfold maxUpd; split <;> rfl

theorem maxUpd_minPrCurve {C : Type} (st : SweepSt C) (r : SeedRun C) :
    (maxUpd st r).minPrCurve = st.minPrCurve := by
  unfold maxUpd; split <;> rfl

theorem maxUpd_rocMax {C : Type} (st : SweepSt C) (r : SeedRun C) :
    (maxUpd st r).out.rocMax
      = if st.out.rocMax < r.auc then r.auc else st.out.rocMax := by
  unfold maxUpd; split <;> rfl

theorem maxUpd_prMax {C : Type} (st : SweepSt C) (r : SeedRun C) :
    (maxUpd st r).out.prMax
      = if st.out.rocMax < r.auc then r.ap else st.out.prMax := by
  unfold maxUpd; split <;> rfl

theorem maxUpd_maxRocCurve {C : Type} (st : SweepSt C) (r : SeedRun C) :
    (maxUpd st r).maxRocCurve
      = if st.out.rocMax < r.auc then some r.rc else st.maxRocCurve := by
  unfold maxUpd; split <;> rfl

theorem maxUpd_maxPrCurve {C : Type} (st : SweepSt C) (r : SeedRun C) :
    (maxUpd st r).maxPrCurve
      = if st.out.rocMax < r.auc then some r.pc else st.maxPrCurve := by
  unfold maxUpd; split <;> rfl

theorem updateSweep_rocMin {C : Type} (st : SweepSt C) (r : SeedRun C) :
    (updateSweep st r).out.rocMin
      = if wantMin st.out.rocMin r.auc then some r.auc else st.out.rocMin := by
  show (maxUpd (minUpd st r) r).out.rocMin = _
  rw [maxUpd_rocMin, minUpd_rocMin]

theorem updateSweep_prMin {C : Type} (st : SweepSt C) (r : SeedRun C) :
    (updateSweep st r).out.prMin
      = if wantMin st.out.rocMin r.auc then some r.ap else st.out.prMin := by
  show (maxUpd (minUpd st r) r).out.prMin = _
  rw [maxUpd_prMin, minUpd_prMin]

theorem updateSweep_minRocCurve {C : Type} (st : SweepSt C) (r : SeedRun C) :
    (updateSweep st r).minRocCurve
      = if wantMin st.out.rocMin r.auc then some r.rc else st.minRocCurve := by
  show (maxUpd (minUpd st r) r).minRocCurve = _
  rw [maxUpd_minRocCurve, minUpd_minRocCurve]

theorem updateSweep_minPrCurve {C : Type} (st : SweepSt C) (r : SeedRun C) :
    (updateSweep st r).minPrCurve
      = if wantMin st.out.rocMin r.auc then some r.pc else st.minPrCurve := by
  show (maxUpd (minUpd st r) r).minPrCurve = _
  rw [maxUpd_minPrCurve, minUpd_minPrCurve]

theorem updateSweep_rocMax {C : Type} (st : SweepSt C) (r : SeedRun C) :
    (updateSweep st r).out.rocMax
      = if st.out.rocMax < r.auc then r.auc else st.out.rocMax := by
  show (maxUpd (minUpd st r) r).out.rocMax = _
  rw [maxUpd_rocMax, minUpd_rocMax]

theorem updateSweep_prMax {C : Type} (st : SweepSt C) (r : SeedRun C) :
    (updateSweep st r).out.prMax
      = if st.out.rocMax < r.auc then r.ap else st.out.prMax := by
  show (maxUpd (minUpd st r) r).out.prMax = _
  rw [maxUpd_prMax, minUpd_rocMax, minUpd_prMax]

theorem updateSweep_maxRocCurve {C : Type} (st : SweepSt C) (r : SeedRun C) :
    (updateSweep st r).maxRocCurve
      = if st.out.rocMax < r.auc then some r.rc else st.maxRocCurve := by
  show (maxUpd (minUpd st r) r).maxRocCurve = _
  rw [maxUpd_maxRocCurve, minUpd_rocMax, minUpd_maxRocCurve]

theorem updateSweep_maxPrCurve {C : Type} (st : SweepSt C) (r : SeedRun C) :
    (updateSweep st r).maxPrCurve
      = if st.out.rocMax < r.auc then some r.pc else st.maxPrCurve := by
  show (maxUpd (minUpd st r) r).maxPrCurve = _
  rw [maxUpd_maxPrCurve, minUpd_rocMax, minUpd_maxPrCurve]

/-- One loop iteration is the per-seed evaluation followed by the pure
tracker update; the incoming state only provides the (ignored) random
state. -/
theorem sweep_step_eq {C : Type} (gauss : ℤ → ℕ → ℚ) (rF pF : List ℕ → List ℚ → C)
    (n_objects : ℕ) (class_weight loc : ℚ) (st : SweepSt C) (s : ℤ) :
    sweep_step gauss rF pF n_objects class_weight loc st s =
      Except.bind (seedEval gauss rF pF n_objects class_weight loc s) fun r =>
        .ok (updateSweep st r) := by
  unfold sweep_step seedEval
  rw [get_distributions_state_irrel gauss n_objects class_weight s loc st.rng ⟨0, 0⟩]
  cases get_distributions gauss n_objects class_weight s loc (⟨0, 0⟩ : GlobalRng) with
  | error e => rfl
  | ok pg =>
    rw [except_bind_ok, except_bind_ok]
    cases roc_auc_score (sampleLabels pg.1) (sampleScores pg.1) with
    | error e => rfl
    | ok a => rfl

/-- A successful run of the loop over a panel decomposes into the list of
per-seed evaluations (all successful) followed by a pure left fold of the
tracker update. -/
theorem aux_ok_elim {C : Type} (gauss : ℤ → ℕ → ℚ) (rF pF : List ℕ → List ℚ → C)
    (n_objects : ℕ) (class_weight loc : ℚ) :
    ∀ (panel : List ℤ) (st st2 : SweepSt C),
      get_curves_aux gauss rF pF n_objects class_weight loc panel st = .ok st2 →
      ∃ runs : List (SeedRun C),
        panel.map (seedEval gauss rF pF n_objects class_weight loc) = runs.map Except.ok ∧
        st2 = List.foldl updateSweep st runs := by
  intro panel
  induction panel with
  | nil =>
    intro st st2 h
    refine ⟨[], rfl, ?_⟩
    rw [List.foldl_nil]
    injection h with h2
    exact h2.symm
  | cons s rest ih =>
    intro st st2 h
    unfold get_curves_aux at h
    rw [sweep_step_eq] at h
    cases hse : seedEval gauss rF pF n_objects class_weight loc s with
    | error e =>
      rw [hse, except_bind_error, except_bind_error] at h
      exact Except.noConfusion h
    | ok r =>
      rw [hse, except_bind_ok, except_bind_ok] at h
      obtain ⟨runs, hmap, hfold⟩ := ih (updateSweep st r) st2 h
      refine ⟨r :: runs, ?_, ?_⟩
      · rw [List.map_cons, hse, List.map_cons, hmap]
      · rw [List.foldl_cons]; exact hfold

/-- If every per-seed evaluation on the panel succeeds, the loop succeeds and
returns the pure fold of the tracker update over the evaluation results. -/
theorem aux_all_ok {C : Type} (gauss : ℤ → ℕ → ℚ) (rF pF : List ℕ → List ℚ → C)
    (n_objects : ℕ) (class_weight loc : ℚ) :
    ∀ (panel : List ℤ) (st : SweepSt C),
      (∀ s, s ∈ panel → ∃ run : SeedRun C,
        seedEval gauss rF pF n_objects class_weight loc s = .ok run) →
      ∃ runs : List (SeedRun C),
        panel.map (seedEval gauss rF pF n_objects class_weight loc) = runs.map Except.ok ∧
        get_curves_aux gauss rF pF n_objects class_weight loc panel st
          = .ok (List.foldl updateSweep st runs) := by
  intro panel
  induction panel with
  | nil => intro st _; exact ⟨[], rfl, rfl⟩
  | cons s rest ih =>
    intro st hall
    obtain ⟨r, hr⟩ := hall s (by simp)
    obtain ⟨runs, hmap, haux⟩ := ih (updateSweep st r) (fun t ht => hall t (by simp [ht]))
    refine ⟨r :: runs, ?_, ?_⟩
    · rw [List.map_cons, hr, List.map_cons, hmap]
    · unfold get_curves_aux
      rw [sweep_step_eq, hr, except_bind_ok, except_bind_ok, haux, List.foldl_cons]

/-- From a panel-to-runs correspondence, each run comes from some seed. -/
theorem mapOk_mem_left {α β : Type} (f : α → Except Err β) :
    ∀ (panel : List α) (runs : List β),
      panel.map f = runs.map Except.ok →
      ∀ r, r ∈ runs → ∃ s, s ∈ panel ∧ f s = .ok r := by
  intro panel
  induction panel with
  | nil =>
    intro runs h r hr
    cases runs with
    | nil => simp at hr
    | cons b bs => simp at h
  | cons a as ih =>
    intro runs h r hr
    cases runs with
    | nil => simp at h
    | cons b bs =>
      rw [List.map_cons, List.map_cons] at h
      injection h with h1 h2
      rcases List.mem_cons.mp hr with rfl | hr2
      · exact ⟨a, by simp, h1⟩
      · obtain ⟨s, hs, hfs⟩ := ih bs h2 r hr2
        exact ⟨s, by simp [hs], hfs⟩

/-- From a panel-to-runs correspondence, each seed's successful evaluation is
one of the runs. -/
theorem mapOk_mem_right {α β : Type} (f : α → Except Err β) :
    ∀ (panel : List α) (runs : List β),
      panel.map f = runs.map Except.ok →
      ∀ s, s ∈ panel → ∀ r, f s = .ok r → r ∈ runs := by
  intro panel
  induction panel with
  | nil => intro runs _ s hs; simp at hs
  | cons a as ih =>
    intro runs h s hs r hfs
    cases runs with
    | nil => simp at h
    | cons b bs =>
      rw [List.map_cons, List.map_cons] at h
      injection h with h1 h2
      rcases List.mem_cons.mp hs with rfl | hs2
      · have : Except.ok (ε := Err) r = Except.ok b := hfs.symm.trans h1
        injection this with hrb
        simp [hrb]
      · exact List.mem_cons_of_mem b (ih bs h2 s hs2 r hfs)

/-- From a panel-to-runs correspondence, every seed's evaluation succeeds. -/
theorem mapOk_mem_exists {α β : Type} (f : α → Except Err β) :
    ∀ (panel : List α) (runs : List β),
      panel.map f = runs.map Except.ok →
      ∀ s, s ∈ panel → ∃ r, f s = .ok r := by
  intro panel
  induction panel with
  | nil => intro runs _ s hs; simp at hs
  | cons a as ih =>
    intro runs h s hs
    cases runs with
    | nil => simp at h
    | cons b bs =>
      rw [List.map_cons, List.map_cons] at h
      injection h with h1 h2
      rcases List.mem_cons.mp hs with rfl | hs2
      · exact ⟨b, h1⟩
      · exact ih bs h2 s hs2

/-- Invariant of the min-side trackers: either no seed has been processed and
they are still unset, or they all carry the data of one processed run whose
AUC-ROC is minimal among all processed runs. -/
def MinInv {C : Type} (runs : List (SeedRun C)) (st : SweepSt C) : Prop :=
  (runs = [] ∧ st.out.rocMin = none ∧ st.out.prMin = none ∧
    st.minRocCurve = none ∧ st.minPrCurve = none) ∨
  (∃ r, r ∈ runs ∧ st.out.rocMin = some r.auc ∧ st.out.prMin = some r.ap ∧
    st.minRocCurve = some r.rc ∧ st.minPrCurve = some r.pc ∧
    ∀ q, q ∈ runs → r.auc ≤ q.auc)

/-- Invariant of the max-side trackers: either no processed run beat the
initial floor `1/2000` and they still hold their initial values, or they all
carry the data of one processed run whose AUC-ROC beats the floor and is
maximal among all processed runs. -/
def MaxInv {C : Type} (runs : List (SeedRun C)) (st : SweepSt C) : Prop :=
  ((∀ q, q ∈ runs → q.auc ≤ 1/2000) ∧ st.out.rocMax = 1/2000 ∧ st.out.prMax = 1/2000 ∧
    st.maxRocCurve = none ∧ st.maxPrCurve = none) ∨
  (∃ r, r ∈ runs ∧ st.out.rocMax = r.auc ∧ st.out.prMax = r.ap ∧
    st.maxRocCurve = some r.rc ∧ st.maxPrCurve = some r.pc ∧
    1/2000 < r.auc ∧ ∀ q, q ∈ runs → q.auc ≤ r.auc)

theorem minInv_step {C : Type} {runs : List (SeedRun C)} {st : SweepSt C} (r : SeedRun C)
    (h : MinInv runs st) : MinInv (runs ++ [r]) (updateSweep st r) := by
  rcases h with ⟨hrs, h1, h2, h3, h4⟩ | ⟨r0, hr0, h1, h2, h3, h4, hb⟩
  · right
    refine ⟨r, by simp, ?_, ?_, ?_, ?_, ?_⟩
    · rw [updateSweep_rocMin, h1]; simp [wantMin]
    · rw [updateSweep_prMin, h1]; simp [wantMin]
    · rw [updateSweep_minRocCurve, h1]; simp [wantMin]
    · rw [updateSweep_minPrCurve, h1]; simp [wantMin]
    · subst hrs; intro q hq; simp at hq; subst hq; exact le_refl _
  · by_cases hlt : r.auc < r0.auc
    · right
      refine ⟨r, by simp, ?_, ?_, ?_, ?_, ?_⟩
      · rw [updateSweep_rocMin, h1]; simp [wantMin, hlt]
      · rw [updateSweep_prMin, h1]; simp [wantMin, hlt]
      · rw [updateSweep_minRocCurve, h1]; simp [wantMin, hlt]
      · rw [updateSweep_minPrCurve, h1]; simp [wantMin, hlt]
      · intro q hq
        rcases List.mem_append.mp hq with hq1 | hq2
        · exact le_trans (le_of_lt hlt) (hb q hq1)
        · simp at hq2; subst hq2; exact le_refl _
    · right
      refine ⟨r0, by simp [hr0], ?_, ?_, ?_, ?_, ?_⟩
      · rw [updateSweep_rocMin, h1]; simp [wantMin, hlt, h1]
      · rw [updateSweep_prMin, h1]; simp [wantMin, hlt, h2]
      · rw [updateSweep_minRocCurve, h1]; simp [wantMin, hlt, h3]
      · rw [updateSweep_minPrCurve, h1]; simp [wantMin, hlt, h4]
      · intro q hq
        rcases List.mem_append.mp hq with hq1 | hq2
        · exact hb q hq1
        · simp at hq2; subst hq2; exact le_of_not_lt hlt

theorem maxInv_step {C : Type} {runs : List (SeedRun C)} {st : SweepSt C} (r : SeedRun C)
    (h : MaxInv runs st) : MaxInv (runs ++ [r]) (updateSweep st r) := by
  rcases h with ⟨hb, h1, h2, h3, h4⟩ | ⟨r0, hr0, h1, h2, h3, h4, hfl, hb⟩
  · by_cases hlt : st.out.rocMax < r.auc
    · right
      refine ⟨r, by simp, ?_, ?_, ?_, ?_, ?_, ?_⟩
      · rw [updateSweep_rocMax]; simp [hlt]
      · rw [updateSweep_prMax]; simp [hlt]
      · rw [updateSweep_maxRocCurve]; simp [hlt]
      · rw [updateSweep_maxPrCurve]; simp [hlt]
      · rw [h1] at hlt; exact hlt
      · intro q hq
        rcases List.mem_append.mp hq with hq1 | hq2
        · exact le_trans (hb q hq1) (by rw [h1] at hlt; exact le_of_lt hlt)
        · simp at hq2; subst hq2; exact le_refl _
    · left
      refine ⟨?_, ?_, ?_, ?_, ?_⟩
      · intro q hq
        rcases List.mem_append.mp hq with hq1 | hq2
        · exact hb q hq1
        · simp at hq2; subst hq2; rw [h1] at hlt; exact le_of_not_lt hlt
      · rw [updateSweep_rocMax, if_neg hlt]; exact h1
      · rw [updateSweep_prMax, if_neg hlt]; exact h2
      · rw [updateSweep_maxRocCurve, if_neg hlt]; exact h3
      · rw [updateSweep_maxPrCurve, if_neg hlt]; exact h4
  · by_cases hlt : st.out.rocMax < r.auc
    · right
      refine ⟨r, by simp, ?_, ?_, ?_, ?_, ?_, ?_⟩
      · rw [updateSweep_rocMax]; simp [hlt]
      · rw [updateSweep_prMax]; simp [hlt]
      · rw [updateSweep_maxRocCurve]; simp [hlt]
      · rw [updateSweep_maxPrCurve]; simp [hlt]
      · rw [h1] at hlt; exact lt_trans hfl hlt
      · intro q hq
        rcases List.mem_append.mp hq with hq1 | hq2
        · rw [h1] at hlt; exact le_trans (hb q hq1) (le_of_lt hlt)
        · simp at hq2; subst hq2; exact le_refl _
    · right
      refine ⟨r0, by simp [hr0], ?_, ?_, ?_, ?_, hfl, ?_⟩
      · rw [updateSweep_rocMax, if_neg hlt]; exact h1
      · rw [updateSweep_prMax, if_neg hlt]; exact h2
      · rw [updateSweep_maxRocCurve, if_neg hlt]; exact h3
      · rw [updateSweep_maxPrCurve, if_neg hlt]; exact h4
      · intro q hq
        rcases List.mem_append.mp hq with hq1 | hq2
        · exact hb q hq1
        · simp at hq2; subst hq2; rw [h1] at hlt; exact le_of_not_lt hlt

theorem minInv_foldl {C : Type} (g : GlobalRng) (runs : List (SeedRun C)) :
    MinInv runs (List.foldl updateSweep (sweepInit g) runs) := by
  induction runs using List.reverseRecOn with
  | nil => left; exact ⟨rfl, rfl, rfl, rfl, rfl⟩
  | append_singleton rs r ih =>
    rw [List.foldl_append, List.foldl_cons, List.foldl_nil]
    exact minInv_step r ih

theorem maxInv_foldl {C : Type} (g : GlobalRng) (runs : List (SeedRun C)) :
    MaxInv runs (List.foldl updateSweep (sweepInit g) runs) := by
  induction runs using List.reverseRecOn with
  | nil => left; exact ⟨by intro q hq; simp at hq, rfl, rfl, rfl, rfl⟩
  | append_singleton rs r ih =>
    rw [List.foldl_append, List.foldl_cons, List.foldl_nil]
    exact maxInv_step r ih

theorem finishCurves_ok_elim {C : Type} (st : SweepSt C) (res : CurvesResult C)
    (h : finishCurves st = .ok res) :
    res.out = st.out ∧ st.minRocCurve = some res.minRoc ∧
    st.maxRocCurve = some res.maxRoc ∧ st.minPrCurve = some res.minPr ∧
    st.maxPrCurve = some res.maxPr := by
  unfold finishCurves at h
  cases h1 : st.minRocCurve with
  | none => rw [h1] at h; exact Except.noConfusion h
  | some mrc =>
    rw [h1] at h
    cases h2 : st.maxRocCurve with
    | none => rw [h2] at h; exact Except.noConfusion h
    | some xrc =>
      rw [h2] at h
      cases h3 : st.minPrCurve with
      | none => rw [h3] at h; exact Except.noConfusion h
      | some mpc =>
        rw [h3] at h
        cases h4 : st.maxPrCurve with
        | none => rw [h4] at h; exact Except.noConfusion h
        | some xpc =>
          rw [h4] at h
          injection h with hres
          subst hres
          exact ⟨rfl, rfl, rfl, rfl, rfl⟩

theorem finishCurves_noMax {C : Type} (st : SweepSt C) (h2 : st.maxRocCurve = none) :
    finishCurves st = .error .UnboundLocal := by
  unfold finishCurves
  cases h1 : st.minRocCurve with
  | none => rfl
  | some mrc => rw [h2]

/-! Claim theorems about the sweep driver. -/

/-- C1: for every run of the seed-sweep driver over a non-empty seed panel in
which every per-seed sample-and-evaluate step succeeds (so the run returns a
result), the returned ROC min value equals the minimum AUC-ROC over the full
per-seed result set — it is attained by some seed of the panel and is a lower
bound for every seed's AUC-ROC — and the returned ROC min is less than or
equal to the returned ROC max. -/
theorem c1_sweep_roc_min_is_minimum {C : Type} (gauss : ℤ → ℕ → ℚ)
    (rF pF : List ℕ → List ℚ → C) (n_objects : ℕ) (class_weight loc : ℚ)
    (panel : List ℤ) (g0 : GlobalRng) (res : CurvesResult C)
    (_hne : panel ≠ [])
    (h : get_curves_panel gauss rF pF n_objects class_weight loc panel g0 = .ok res) :
    (∀ s, s ∈ panel → ∃ run : SeedRun C,
      seedEval gauss rF pF n_objects class_weight loc s = .ok run) ∧
    ∃ m, res.out.rocMin = some m ∧ m ≤ res.out.rocMax ∧
      (∃ s, s ∈ panel ∧ ∃ run : SeedRun C,
        seedEval gauss rF pF n_objects class_weight loc s = .ok run ∧ run.auc = m) ∧
      (∀ s, s ∈ panel → ∀ run : SeedRun C,
        seedEval gauss rF pF n_objects class_weight loc s = .ok run → m ≤ run.auc) := by
  unfold get_curves_panel at h
  cases haux : get_curves_aux gauss rF pF n_objects class_weight loc panel (sweepInit g0) with
  | error e => rw [haux, except_bind_error] at h; exact Except.noConfusion h
  | ok st =>
    rw [haux, except_bind_ok] at h
    obtain ⟨runs, hmap, hst⟩ :=
      aux_ok_elim gauss rF pF n_objects class_weight loc panel _ st haux
    obtain ⟨hout, hmrc, hxrc, _, _⟩ := finishCurves_ok_elim st res h
    subst hst
    refine ⟨fun s hs => mapOk_mem_exists _ panel runs hmap s hs, ?_⟩
    rcases minInv_foldl g0 runs with ⟨_, _, _, h3, _⟩ | ⟨r0, hr0, h1, _, _, _, hb⟩
    · rw [h3] at hmrc; exact Option.noConfusion hmrc
    · refine ⟨r0.auc, ?_, ?_, ?_, ?_⟩
      · rw [hout]; exact h1
      · rcases maxInv_foldl g0 runs with ⟨_, _, _, hx3, _⟩ | ⟨r1, hr1, hx1, _, _, _, _, _⟩
        · rw [hx3] at hxrc; exact Option.noConfusion hxrc
        · rw [hout, hx1]; exact hb r1 hr1
      · obtain ⟨s, hs, hfs⟩ := mapOk_mem_left _ panel runs hmap r0 hr0
        exact ⟨s, hs, r0, hfs, rfl⟩
      · intro s hs run hrun
        exact hb run (mapOk_mem_right _ panel runs hmap s hs run hrun)

/-- C2: in every returned sweep result, the reported PR min and max values
and the retained min/max PR (and ROC) curves are the AUC-PR and curves of the
run that achieved the minimum, respectively maximum, AUC-ROC: both update
decisions are keyed off AUC-ROC comparisons only, and AUC-PR is carried along
from the extremal-AUC-ROC run rather than independently minimized or
maximized. -/
theorem c2_pr_fields_carried_from_roc_extremal_run {C : Type} (gauss : ℤ → ℕ → ℚ)
    (rF pF : List ℕ → List ℚ → C) (n_objects : ℕ) (class_weight loc : ℚ)
    (panel : List ℤ) (g0 : GlobalRng) (res : CurvesResult C)
    (h : get_curves_panel gauss rF pF n_objects class_weight loc panel g0 = .ok res) :
    (∃ s, s ∈ panel ∧ ∃ run : SeedRun C,
      seedEval gauss rF pF n_objects class_weight loc s = .ok run ∧
      res.out.rocMin = some run.auc ∧ res.out.prMin = some run.ap ∧
      res.minRoc = run.rc ∧ res.minPr = run.pc ∧
      (∀ t, t ∈ panel → ∀ q : SeedRun C,
        seedEval gauss rF pF n_objects class_weight loc t = .ok q → run.auc ≤ q.auc)) ∧
    (∃ s, s ∈ panel ∧ ∃ run : SeedRun C,
      seedEval gauss rF pF n_objects class_weight loc s = .ok run ∧
      res.out.rocMax = run.auc ∧ res.out.prMax = run.ap ∧
      res.maxRoc = run.rc ∧ res.maxPr = run.pc ∧
      (∀ t, t ∈ panel → ∀ q : SeedRun C,
        seedEval gauss rF pF n_objects class_weight loc t = .ok q → q.auc ≤ run.auc)) := by
  unfold get_curves_panel at h
  cases haux : get_curves_aux gauss rF pF n_objects class_weight loc panel (sweepInit g0) with
  | error e => rw [haux, except_bind_error] at h; exact Except.noConfusion h
  | ok st =>
    rw [haux, except_bind_ok] at h
    obtain ⟨runs, hmap, hst⟩ :=
      aux_ok_elim gauss rF pF n_objects class_weight loc panel _ st haux
    obtain ⟨hout, hmrc, hxrc, hmpc, hxpc⟩ := finishCurves_ok_elim st res h
    subst hst
    constructor
    · rcases minInv_foldl g0 runs with ⟨_, _, _, h3, _⟩ | ⟨r0, hr0, h1, h2, h3, h4, hb⟩
      · rw [h3] at hmrc; exact Option.noConfusion hmrc
      · obtain ⟨s, hs, hfs⟩ := mapOk_mem_left _ panel runs hmap r0 hr0
        refine ⟨s, hs, r0, hfs, ?_, ?_, ?_, ?_, ?_⟩
        · rw [hout]; exact h1
        · rw [hout]; exact h2
        · rw [h3] at hmrc; exact (Option.some.inj hmrc).symm
        · rw [h4] at hmpc; exact (Option.some.inj hmpc).symm
        · intro t ht q hq
          exact hb q (mapOk_mem_right _ panel runs hmap t ht q hq)
    · rcases maxInv_foldl g0 runs with ⟨_, _, _, hx3, _⟩ | ⟨r1, hr1, hx1, hx2, hx3, hx4, _, hub⟩
      · rw [hx3] at hxrc; exact Option.noConfusion hxrc
      · obtain ⟨s, hs, hfs⟩ := mapOk_mem_left _ panel runs hmap r1 hr1
        refine ⟨s, hs, r1, hfs, ?_, ?_, ?_, ?_, ?_⟩
        · rw [hout]; exact hx1
        · rw [hout]; exact hx2
        · rw [hx3] at hxrc; exact (Option.some.inj hxrc).symm
        · rw [hx4] at hxpc; exact (Option.some.inj hxpc).symm
        · intro t ht q hq
          exact hub q (mapOk_mem_right _ panel runs hmap t ht q hq)

/-- C10: once the sweep loop has processed at least one seed successfully
(a successful loop run over a non-empty panel), the min-side record is fully
populated — ROC min and PR min are set and both min curves are bound — since
the min tracker starts as `None` and is adopted on the first seed. -/
theorem c10_min_side_populated {C : Type} (gauss : ℤ → ℕ → ℚ)
    (rF pF : List ℕ → List ℚ → C) (n_objects : ℕ) (class_weight loc : ℚ)
    (panel : List ℤ) (g : GlobalRng) (st : SweepSt C)
    (hne : panel ≠ [])
    (h : get_curves_aux gauss rF pF n_objects class_weight loc panel (sweepInit g) = .ok st) :
    st.out.rocMin.isSome ∧ st.out.prMin.isSome ∧
    st.minRocCurve.isSome ∧ st.minPrCurve.isSome := by
  obtain ⟨runs, hmap, hst⟩ :=
    aux_ok_elim gauss rF pF n_objects class_weight loc panel _ st h
  subst hst
  rcases minInv_foldl g runs with ⟨hrs, _, _, _, _⟩ | ⟨r0, _, h1, h2, h3, h4, _⟩
  · subst hrs
    simp only [List.map_nil] at hmap
    exact absurd (List.map_eq_nil_iff.mp hmap) hne
  · rw [h1, h2, h3, h4]
    exact ⟨rfl, rfl, rfl, rfl⟩

/-- C7 (amended): the sweep driver initializes its trackers to
min = `None` and max = `0.0005` for both metrics, but when every per-seed
step succeeds with an AUC-ROC that never exceeds the `0.0005` floor, the
driver does not return normally with unset max fields: the max-side curve
locals are never assigned, and the return statement raises an unbound-local
error. -/
theorem c7_floor_never_exceeded_raises {C : Type} (gauss : ℤ → ℕ → ℚ)
    (rF pF : List ℕ → List ℚ → C) (n_objects : ℕ) (class_weight loc : ℚ)
    (panel : List ℤ) (g0 : GlobalRng)
    (hall : ∀ s, s ∈ panel → ∃ run : SeedRun C,
      seedEval gauss rF pF n_objects class_weight loc s = .ok run ∧ run.auc ≤ 1/2000) :
    (sweepInit (C := C) g0).out = ⟨none, 1/2000, none, 1/2000⟩ ∧
    get_curves_panel gauss rF pF n_objects class_weight loc panel g0
      = .error .UnboundLocal := by
  refine ⟨rfl, ?_⟩
  obtain ⟨runs, hmap, haux⟩ := aux_all_ok gauss rF pF n_objects class_weight loc panel
    (sweepInit g0) (fun s hs => (hall s hs).imp fun run hr => hr.1)
  unfold get_curves_panel
  rw [haux, except_bind_ok]
  apply finishCurves_noMax
  rcases maxInv_foldl g0 runs with ⟨_, _, _, h3, _⟩ | ⟨r1, hr1, _, _, _, _, hfl, _⟩
  · exact h3
  · obtain ⟨s, hs, hfs⟩ := mapOk_mem_left _ panel runs hmap r1 hr1
    obtain ⟨run, hrun, hle⟩ := hall s hs
    rw [hfs] at hrun
    injection hrun with hrr
    rw [← hrr] at hle
    exact absurd hle (not_le.mpr hfl)

/-! Concrete instantiations used to exercise the theorems. -/

/-- A concrete standard-normal stream that always yields 0. -/
def gaussZ : ℤ → ℕ → ℚ := fun _ _ => 0

/-- A concrete stand-in for the abstracted sklearn curve functions: return
the score list itself as the curve data. -/
def curveId : List ℕ → List ℚ → List ℚ := fun _ d => d

/-- Concrete sampler evaluation: two objects, half positive, separation -100,
any seed: one negative score 0 and one positive score -100. -/
theorem get_distributions_neg100 (s : ℤ) :
    get_distributions gaussZ 2 (1/2) s (-100) ⟨0, 0⟩
      = .ok (([0], [-100]), ⟨s, 2⟩) := by
  norm_num [get_distributions, np_normal, pyInt, gaussZ, except_bind_ok, List.range_succ]

/-- Concrete per-seed evaluation at separation -100: AUC-ROC is 0 (the only
positive scores below the only negative) and AUC-PR is 1/2. -/
theorem seedEval_neg100 (s : ℤ) :
    seedEval gaussZ curveId curveId 2 (1/2) (-100) s
      = .ok ⟨0, 1/2, [0, -100], [0, -100], ⟨s, 2⟩⟩ := by
  unfold seedEval
  rw [get_distributions_neg100 s, except_bind_ok]
  have hroc : roc_auc_score (sampleLabels ([0], [-100])) (sampleScores ([0], [-100]))
      = .ok 0 := by
    norm_num [roc_auc_score, sampleLabels, sampleScores, pairScore,
      List.filter_cons, List.filter_nil, List.replicate_succ,
      List.zip_cons_cons, List.zip_nil_right, List.zip_nil_left]
  have hap : average_precision_score (sampleLabels ([0], [-100]))
      (sampleScores ([0], [-100])) = 1/2 := by
    norm_num [average_precision_score, sampleLabels, sampleScores, thresholdsDesc,
      insertDesc, apAux, List.filter_cons, List.filter_nil, List.replicate_succ,
      List.zip_cons_cons, List.zip_nil_right, List.zip_nil_left]
  simp only [hroc, except_bind_ok, hap, curveId]
  norm_num [sampleScores]

/-- C7 (counterexample to the claim as stated): a run in which every seed of
the fixed panel succeeds with AUC-ROC 0 — never exceeding the initial max
floor 0.0005 — and on which `get_curves` raises an unbound-local error
instead of returning normally with the max-side curve fields unset. -/
theorem c7_counterexample :
    (∀ s, s ∈ seeds → seedEval gaussZ curveId curveId 2 (1/2) (-100) s
      = .ok ⟨0, 1/2, [0, -100], [0, -100], ⟨s, 2⟩⟩) ∧
    get_curves gaussZ curveId curveId 2 (1/2) (-100) ⟨0, 0⟩
      = .error .UnboundLocal := by
  refine ⟨fun s _ => seedEval_neg100 s, ?_⟩
  unfold get_curves
  obtain ⟨runs, hmap, haux⟩ := aux_all_ok gaussZ curveId curveId 2 (1/2) (-100) seeds
    (sweepInit ⟨0, 0⟩) (fun s _ => ⟨_, seedEval_neg100 s⟩)
  unfold get_curves_panel
  rw [haux, except_bind_ok]
  apply finishCurves_noMax
  rcases maxInv_foldl (⟨0, 0⟩ : GlobalRng) runs with ⟨_, _, _, h3, _⟩ |
    ⟨r1, hr1, _, _, _, _, hfl, _⟩
  · exact h3
  · obtain ⟨s, hs, hfs⟩ := mapOk_mem_left _ seeds runs hmap r1 hr1
    rw [seedEval_neg100 s] at hfs
    injection hfs with hrr
    rw [← hrr] at hfl
    norm_num at hfl

/-- Witness for the amended C7 theorem at a concrete all-below-floor run. -/
theorem c7_floor_never_exceeded_raises_witness :
    (sweepInit (C := List ℚ) (⟨0, 0⟩ : GlobalRng)).out = ⟨none, 1/2000, none, 1/2000⟩ ∧
    get_curves_panel gaussZ curveId curveId 2 (1/2) (-100) [5] ⟨0, 0⟩
      = .error .UnboundLocal :=
  c7_floor_never_exceeded_raises gaussZ curveId curveId 2 (1/2) (-100) [5] ⟨0, 0⟩
    (fun s _ => ⟨⟨0, 1/2, [0, -100], [0, -100], ⟨s, 2⟩⟩, seedEval_neg100 s, by norm_num⟩)

/-- Concrete per-seed evaluation at separation 10: AUC-ROC and AUC-PR are
both 1 (the one positive score 10 outranks the one negative score 0). -/
theorem seedEval_sep10 (s : ℤ) :
    seedEval gaussZ curveId curveId 2 (1/2) 10 s
      = .ok ⟨1, 1, [0, 10], [0, 10], ⟨s, 2⟩⟩ := by
  unfold seedEval
  have hgd : get_distributions gaussZ 2 (1/2) s 10 ⟨0, 0⟩
      = .ok (([0], [10]), ⟨s, 2⟩) := by
    norm_num [get_distributions, np_normal, pyInt, gaussZ, except_bind_ok, List.range_succ]
  rw [hgd, except_bind_ok]
  have hroc : roc_auc_score (sampleLabels ([0], [10])) (sampleScores ([0], [10]))
      = .ok 1 := by
    norm_num [roc_auc_score, sampleLabels, sampleScores, pairScore,
      List.filter_cons, List.filter_nil, List.replicate_succ,
      List.zip_cons_cons, List.zip_nil_right, List.zip_nil_left]
  have hap : average_precision_score (sampleLabels ([0], [10]))
      (sampleScores ([0], [10])) = 1 := by
    norm_num [average_precision_score, sampleLabels, sampleScores, thresholdsDesc,
      insertDesc, apAux, List.filter_cons, List.filter_nil, List.replicate_succ,
      List.zip_cons_cons, List.zip_nil_right, List.zip_nil_left]
  simp only [hroc, except_bind_ok, hap, curveId]
  norm_num [sampleScores]

/-- Evaluation of the whole sweep on the one-seed panel `[7]` at
separation 10. -/
theorem get_curves_panel_sep10 :
    get_curves_panel gaussZ curveId curveId 2 (1/2) 10 [7] ⟨0, 0⟩
      = .ok ⟨⟨some 1, 1, some 1, 1⟩, [0, 10], [0, 10], [0, 10], [0, 10]⟩ := by
  have hupd : updateSweep (sweepInit (C := List ℚ) ⟨0, 0⟩)
      ⟨1, 1, [0, 10], [0, 10], ⟨7, 2⟩⟩
      = ⟨⟨some 1, 1, some 1, 1⟩, some [0, 10], some [0, 10], some [0, 10],
         some [0, 10], ⟨7, 2⟩⟩ := by
    norm_num [updateSweep, minUpd, maxUpd, wantMin, sweepInit]
  unfold get_curves_panel get_curves_aux
  rw [sweep_step_eq, seedEval_sep10, except_bind_ok, except_bind_ok, hupd]
  unfold get_curves_aux
  rw [except_bind_ok]
  rfl

/-- Witness for C1 at the concrete one-seed panel `[7]`. -/
theorem c1_sweep_roc_min_is_minimum_witness :
    (∀ s, s ∈ [(7 : ℤ)] → ∃ run : SeedRun (List ℚ),
      seedEval gaussZ curveId curveId 2 (1/2) 10 s = .ok run) ∧
    ∃ m, (⟨⟨some 1, 1, some 1, 1⟩, [0, 10], [0, 10], [0, 10], [0, 10]⟩ :
        CurvesResult (List ℚ)).out.rocMin = some m ∧
      m ≤ (⟨⟨some 1, 1, some 1, 1⟩, [0, 10], [0, 10], [0, 10], [0, 10]⟩ :
        CurvesResult (List ℚ)).out.rocMax ∧
      (∃ s, s ∈ [(7 : ℤ)] ∧ ∃ run : SeedRun (List ℚ),
        seedEval gaussZ curveId curveId 2 (1/2) 10 s = .ok run ∧ run.auc = m) ∧
      (∀ s, s ∈ [(7 : ℤ)] → ∀ run : SeedRun (List ℚ),
        seedEval gaussZ curveId curveId 2 (1/2) 10 s = .ok run → m ≤ run.auc) :=
  c1_sweep_roc_min_is_minimum gaussZ curveId curveId 2 (1/2) 10 [7] ⟨0, 0⟩ _
    (List.cons_ne_nil 7 []) get_curves_panel_sep10

/-- Witness for C2 at the concrete one-seed panel `[7]`. -/
theorem c2_pr_fields_carried_from_roc_extremal_run_witness :
    (∃ s, s ∈ [(7 : ℤ)] ∧ ∃ run : SeedRun (List ℚ),
      seedEval gaussZ curveId curveId 2 (1/2) 10 s = .ok run ∧
      (⟨⟨some 1, 1, some 1, 1⟩, [0, 10], [0, 10], [0, 10], [0, 10]⟩ :
        CurvesResult (List ℚ)).out.rocMin = some run.auc ∧
      (⟨⟨some 1, 1, some 1, 1⟩, [0, 10], [0, 10], [0, 10], [0, 10]⟩ :
        CurvesResult (List ℚ)).out.prMin = some run.ap ∧
      (⟨⟨some 1, 1, some 1, 1⟩, [0, 10], [0, 10], [0, 10], [0, 10]⟩ :
        CurvesResult (List ℚ)).minRoc = run.rc ∧
      (⟨⟨some 1, 1, some 1, 1⟩, [0, 10], [0, 10], [0, 10], [0, 10]⟩ :
        CurvesResult (List ℚ)).minPr = run.pc ∧
      (∀ t, t ∈ [(7 : ℤ)] → ∀ q : SeedRun (List ℚ),
        seedEval gaussZ curveId curveId 2 (1/2) 10 t = .ok q → run.auc ≤ q.auc)) ∧
    (∃ s, s ∈ [(7 : ℤ)] ∧ ∃ run : SeedRun (List ℚ),
      seedEval gaussZ curveId curveId 2 (1/2) 10 s = .ok run ∧
      (⟨⟨some 1, 1, some 1, 1⟩, [0, 10], [0, 10], [0, 10], [0, 10]⟩ :
        CurvesResult (List ℚ)).out.rocMax = run.auc ∧
      (⟨⟨some 1, 1, some 1, 1⟩, [0, 10], [0, 10], [0, 10], [0, 10]⟩ :
        CurvesResult (List ℚ)).out.prMax = run.ap ∧
      (⟨⟨some 1, 1, some 1, 1⟩, [0, 10], [0, 10], [0, 10], [0, 10]⟩ :
        CurvesResult (List ℚ)).maxRoc = run.rc ∧
      (⟨⟨some 1, 1, some 1, 1⟩, [0, 10], [0, 10], [0, 10], [0, 10]⟩ :
        CurvesResult (List ℚ)).maxPr = run.pc ∧
      (∀ t, t ∈ [(7 : ℤ)] → ∀ q : SeedRun (List ℚ),
        seedEval gaussZ curveId curveId 2 (1/2) 10 t = .ok q → q.auc ≤ run.auc)) :=
  c2_pr_fields_carried_from_roc_extremal_run gaussZ curveId curveId 2 (1/2) 10 [7]
    ⟨0, 0⟩ _ get_curves_panel_sep10

/-- Evaluation of the sweep loop itself on the one-seed panel `[7]` at
separation 10. -/
theorem get_curves_aux_sep10 :
    get_curves_aux gaussZ curveId curveId 2 (1/2) 10 [7] (sweepInit ⟨0, 0⟩)
      = .ok ⟨⟨some 1, 1, some 1, 1⟩, some [0, 10], some [0, 10], some [0, 10],
             some [0, 10], ⟨7, 2⟩⟩ := by
  have hupd : updateSweep (sweepInit (C := List ℚ) ⟨0, 0⟩)
      ⟨1, 1, [0, 10], [0, 10], ⟨7, 2⟩⟩
      = ⟨⟨some 1, 1, some 1, 1⟩, some [0, 10], some [0, 10], some [0, 10],
         some [0, 10], ⟨7, 2⟩⟩ := by
    norm_num [updateSweep, minUpd, maxUpd, wantMin, sweepInit]
  unfold get_curves_aux
  rw [sweep_step_eq, seedEval_sep10, except_bind_ok, except_bind_ok, hupd]
  unfold get_curves_aux
  rfl

/-- Witness for C10 at the concrete one-seed panel `[7]`. -/
theorem c10_min_side_populated_witness :
    (⟨⟨some 1, 1, some 1, 1⟩, some [0, 10], some [0, 10], some [0, 10],
       some [0, 10], ⟨7, 2⟩⟩ : SweepSt (List ℚ)).out.rocMin.isSome ∧
    (⟨⟨some 1, 1, some 1, 1⟩, some [0, 10], some [0, 10], some [0, 10],
       some [0, 10], ⟨7, 2⟩⟩ : SweepSt (List ℚ)).out.prMin.isSome ∧
    (⟨⟨some 1, 1, some 1, 1⟩, some [0, 10], some [0, 10], some [0, 10],
       some [0, 10], ⟨7, 2⟩⟩ : SweepSt (List ℚ)).minRocCurve.isSome ∧
    (⟨⟨some 1, 1, some 1, 1⟩, some [0, 10], some [0, 10], some [0, 10],
       some [0, 10], ⟨7, 2⟩⟩ : SweepSt (List ℚ)).minPrCurve.isSome :=
  c10_min_side_populated gaussZ curveId curveId 2 (1/2) 10 [7] ⟨0, 0⟩ _
    (List.cons_ne_nil 7 []) get_curves_aux_sep10

/-! Claim theorems about the sampler. -/

/-- C3: for every population spec with positive integer size and
positiveWeight in [0,1], the sampler draws exactly `⌊size * (1 - pw)⌋`
negative scores from normal(0, 5) — each draw is `0 + 5 * z` for the next
standard-normal stream value — and `⌊size * pw⌋` positive scores from
normal(separation, 5), and the assembled labeled sample is `n_neg` zeros
followed by `n_pos` ones with the negative score array concatenated before
the positive score array in the same order. -/
theorem c3_sampler_draws_and_assembly (gauss : ℤ → ℕ → ℚ) (n_objects : ℕ)
    (positive_class_weight loc : ℚ) (seed : ℤ) (g : GlobalRng)
    (h0 : 0 ≤ positive_class_weight) (h1 : positive_class_weight ≤ 1)
    (_hn : 0 < n_objects) :
    ∃ n_neg n_pos : ℕ,
      (n_neg : ℤ) = ⌊(n_objects : ℚ) * (1 - positive_class_weight)⌋ ∧
      (n_pos : ℤ) = ⌊(n_objects : ℚ) * positive_class_weight⌋ ∧
      get_distributions gauss n_objects positive_class_weight seed loc g =
        .ok ((((List.range n_neg).map fun i => 0 + 5 * gauss seed i),
              ((List.range n_pos).map fun j => loc + 5 * gauss seed (n_neg + j))),
          ⟨seed, n_neg + n_pos⟩) ∧
      sampleLabels (((List.range n_neg).map fun i => 0 + 5 * gauss seed i),
          ((List.range n_pos).map fun j => loc + 5 * gauss seed (n_neg + j)))
        = List.replicate n_neg 0 ++ List.replicate n_pos 1 ∧
      sampleScores (((List.range n_neg).map fun i => 0 + 5 * gauss seed i),
          ((List.range n_pos).map fun j => loc + 5 * gauss seed (n_neg + j)))
        = ((List.range n_neg).map fun i => 0 + 5 * gauss seed i)
          ++ ((List.range n_pos).map fun j => loc + 5 * gauss seed (n_neg + j)) := by
  have hq1 : 0 ≤ (n_objects : ℚ) * (1 - positive_class_weight) :=
    mul_nonneg (Nat.cast_nonneg _) (by linarith)
  have hq2 : 0 ≤ (n_objects : ℚ) * positive_class_weight :=
    mul_nonneg (Nat.cast_nonneg _) h0
  have hf1 : 0 ≤ ⌊(n_objects : ℚ) * (1 - positive_class_weight)⌋ :=
    Int.floor_nonneg.mpr hq1
  have hf2 : 0 ≤ ⌊(n_objects : ℚ) * positive_class_weight⌋ :=
    Int.floor_nonneg.mpr hq2
  have hp1 : pyInt ((n_objects : ℚ) * (1 - positive_class_weight))
      = ⌊(n_objects : ℚ) * (1 - positive_class_weight)⌋ := by
    unfold pyInt; rw [if_neg (not_lt.mpr hq1)]
  have hp2 : pyInt ((n_objects : ℚ) * positive_class_weight)
      = ⌊(n_objects : ℚ) * positive_class_weight⌋ := by
    unfold pyInt; rw [if_neg (not_lt.mpr hq2)]
  refine ⟨⌊(n_objects : ℚ) * (1 - positive_class_weight)⌋.toNat,
    ⌊(n_objects : ℚ) * positive_class_weight⌋.toNat,
    Int.toNat_of_nonneg hf1, Int.toNat_of_nonneg hf2, ?_, ?_, rfl⟩
  · unfold get_distributions np_normal
    rw [hp1, hp2]
    rw [if_neg (not_lt.mpr hf1)]
    simp only [except_bind_ok]
    rw [if_neg (not_lt.mpr hf2)]
    simp only [except_bind_ok, Nat.zero_add]
  · simp [sampleLabels]

/-- C4 (counterexample to the claim as stated): `positiveWeight = 21/20` lies
outside [0,1], yet the sampler succeeds for size 10, because Python `int`
truncates `10 * (1 - 21/20) = -0.5` toward zero, yielding 0 negative draws
rather than a negative array size. -/
theorem c4_counterexample :
    ¬((21/20 : ℚ) ≤ 1) ∧
    ∃ v, get_distributions gaussZ 10 (21/20) 0 10 ⟨0, 0⟩ = .ok v := by
  have hp1 : pyInt ((10 : ℕ) * ((1 : ℚ) - 21/20)) = 0 := by norm_num [pyInt]
  have hp2 : pyInt ((10 : ℕ) * (21/20 : ℚ)) = 10 := by norm_num [pyInt]
  refine ⟨by norm_num, ⟨(([], [10, 10, 10, 10, 10, 10, 10, 10, 10, 10]), ⟨0, 10⟩), ?_⟩⟩
  unfold get_distributions np_normal
  rw [hp1, hp2]
  have hr : List.range 10 = [0, 1, 2, 3, 4, 5, 6, 7, 8, 9] := rfl
  have ht : Int.toNat 10 = 10 := rfl
  norm_num [gaussZ, except_bind_ok, hr, ht, -List.map_const, -List.map_const']

/-- C4 (amended): the sampler fails — with the `InvalidParameter` kind, its
only error condition — exactly when one of the two truncated partition sizes
`int(size * (1 - pw))`, `int(size * pw)` is negative; in particular, for
every positiveWeight in [0,1] sampling succeeds.  (Because `int` truncates
toward zero, weights slightly outside [0,1], such as `1 + 1/(2*size)`, still
succeed.) -/
theorem c4_invalid_parameter_exact (gauss : ℤ → ℕ → ℚ) (n_objects : ℕ)
    (positive_class_weight : ℚ) (seed : ℤ) (loc : ℚ) (g : GlobalRng) :
    (get_distributions gauss n_objects positive_class_weight seed loc g
        = .error .InvalidParameter
      ↔ (pyInt ((n_objects : ℚ) * (1 - positive_class_weight)) < 0 ∨
         pyInt ((n_objects : ℚ) * positive_class_weight) < 0)) ∧
    (∀ e : Err, get_distributions gauss n_objects positive_class_weight seed loc g
        = .error e → e = .InvalidParameter) ∧
    (0 ≤ positive_class_weight → positive_class_weight ≤ 1 →
      ∃ v, get_distributions gauss n_objects positive_class_weight seed loc g = .ok v) := by
  by_cases hc1 : pyInt ((n_objects : ℚ) * (1 - positive_class_weight)) < 0
  · have hres : get_distributions gauss n_objects positive_class_weight seed loc g
        = .error .InvalidParameter := by
      unfold get_distributions np_normal
      rw [if_pos hc1, except_bind_error]
    refine ⟨?_, ?_, ?_⟩
    · rw [hres]; exact ⟨fun _ => Or.inl hc1, fun _ => rfl⟩
    · intro e he; rw [hres] at he; injection he with h; exact h.symm
    · intro h0 h1
      exfalso
      have hq1 : 0 ≤ (n_objects : ℚ) * (1 - positive_class_weight) :=
        mul_nonneg (Nat.cast_nonneg _) (by linarith)
      have : 0 ≤ pyInt ((n_objects : ℚ) * (1 - positive_class_weight)) := by
        unfold pyInt
        rw [if_neg (not_lt.mpr hq1)]
        exact Int.floor_nonneg.mpr hq1
      exact absurd hc1 (not_lt.mpr this)
  · by_cases hc2 : pyInt ((n_objects : ℚ) * positive_class_weight) < 0
    · have hres : get_distributions gauss n_objects positive_class_weight seed loc g
          = .error .InvalidParameter := by
        unfold get_distributions np_normal
        rw [if_neg hc1]
        simp only [except_bind_ok]
        rw [if_pos hc2, except_bind_error]
      refine ⟨?_, ?_, ?_⟩
      · rw [hres]; exact ⟨fun _ => Or.inr hc2, fun _ => rfl⟩
      · intro e he; rw [hres] at he; injection he with h; exact h.symm
      · intro h0 h1
        exfalso
        have hq2 : 0 ≤ (n_objects : ℚ) * positive_class_weight :=
          mul_nonneg (Nat.cast_nonneg _) h0
        have : 0 ≤ pyInt ((n_objects : ℚ) * positive_class_weight) := by
          unfold pyInt
          rw [if_neg (not_lt.mpr hq2)]
          exact Int.floor_nonneg.mpr hq2
        exact absurd hc2 (not_lt.mpr this)
    · have hres : ∃ v, get_distributions gauss n_objects positive_class_weight seed loc g
          = .ok v := by
        unfold get_distributions np_normal
        rw [if_neg hc1]
        simp only [except_bind_ok]
        rw [if_neg hc2]
        simp only [except_bind_ok]
        exact ⟨_, rfl⟩
      obtain ⟨v, hv⟩ := hres
      refine ⟨?_, ?_, fun _ _ => ⟨v, hv⟩⟩
      · rw [hv]
        constructor
        · intro h; exact Except.noConfusion h
        · intro h; rcases h with h | h
          · exact absurd h hc1
          · exact absurd h hc2
      · intro e he; rw [hv] at he; exact Except.noConfusion he

/-- Witness for the amended C4 theorem at a concrete in-range weight. -/
theorem c4_invalid_parameter_exact_witness :
    (get_distributions gaussZ 10 (1/2) 0 10 ⟨0, 0⟩ = .error .InvalidParameter
      ↔ (pyInt ((10 : ℕ) * (1 - 1/2 : ℚ)) < 0 ∨ pyInt ((10 : ℕ) * (1/2 : ℚ)) < 0)) ∧
    (∀ e : Err, get_distributions gaussZ 10 (1/2) 0 10 ⟨0, 0⟩ = .error e →
      e = .InvalidParameter) ∧
    ((0 : ℚ) ≤ 1/2 → (1/2 : ℚ) ≤ 1 →
      ∃ v, get_distributions gaussZ 10 (1/2) 0 10 ⟨0, 0⟩ = .ok v) :=
  c4_invalid_parameter_exact gaussZ 10 (1/2) 0 10 ⟨0, 0⟩

/-- C6 (counterexample to the claim as stated): the sampler mutates the
process-wide random state — after a call with seed 42 on 4 objects the global
state is `⟨42, 4⟩`, not the pre-call state `⟨0, 0⟩`. -/
theorem c6_counterexample :
    ∃ p, get_distributions gaussZ 4 (1/2) 42 10 ⟨0, 0⟩ = .ok p ∧
      p.2 ≠ (⟨0, 0⟩ : GlobalRng) := by
  refine ⟨(([0, 0], [10, 10]), ⟨42, 4⟩), ?_, by decide⟩
  have hr : List.range 2 = [0, 1] := rfl
  have ht : Int.toNat 2 = 2 := rfl
  norm_num [get_distributions, np_normal, pyInt, gaussZ, except_bind_ok, hr, ht,
    -List.map_const, -List.map_const']

/-- C6 (amended): the sampler does mutate the process-wide random state — it
reseeds the generator from the given seed, so the post-call state carries
that seed — but its entire result, the sample and the post-call state alike,
depends only on the call parameters and never on the pre-call state, so
repeated calls remain independent and reproducible by seed alone. -/
theorem c6_reseeds_and_is_state_independent (gauss : ℤ → ℕ → ℚ) (n_objects : ℕ)
    (positive_class_weight : ℚ) (seed : ℤ) (loc : ℚ) (g g2 : GlobalRng) :
    (get_distributions gauss n_objects positive_class_weight seed loc g
       = get_distributions gauss n_objects positive_class_weight seed loc g2) ∧
    (∀ p, get_distributions gauss n_objects positive_class_weight seed loc g = .ok p →
       p.2.seed = seed) := by
  refine ⟨rfl, ?_⟩
  intro p hp
  unfold get_distributions np_normal at hp
  by_cases hc1 : pyInt ((n_objects : ℚ) * (1 - positive_class_weight)) < 0
  · rw [if_pos hc1, except_bind_error] at hp
    exact Except.noConfusion hp
  · rw [if_neg hc1] at hp
    simp only [except_bind_ok] at hp
    by_cases hc2 : pyInt ((n_objects : ℚ) * positive_class_weight) < 0
    · rw [if_pos hc2, except_bind_error] at hp
      exact Except.noConfusion hp
    · rw [if_neg hc2] at hp
      simp only [except_bind_ok] at hp
      injection hp with h
      rw [← h]

/-- Witness for the amended C6 theorem at concrete states. -/
theorem c6_reseeds_and_is_state_independent_witness :
    (get_distributions gaussZ 4 (1/2) 42 10 ⟨0, 0⟩
       = get_distributions gaussZ 4 (1/2) 42 10 ⟨5, 7⟩) ∧
    (∀ p, get_distributions gaussZ 4 (1/2) 42 10 ⟨0, 0⟩ = .ok p →
       p.2.seed = 42) :=
  c6_reseeds_and_is_state_independent gaussZ 4 (1/2) 42 10 ⟨0, 0⟩ ⟨5, 7⟩

/-- Concrete sampler evaluation at separation 10 for any seed. -/
theorem get_distributions_sep10 (s : ℤ) :
    get_distributions gaussZ 2 (1/2) s 10 ⟨0, 0⟩ = .ok (([0], [10]), ⟨s, 2⟩) := by
  norm_num [get_distributions, np_normal, pyInt, gaussZ, except_bind_ok, List.range_succ]

/-- C8: the sampler is deterministic in its parameters — calling it a second
time with the same size, weight, separation and seed, from whatever global
state the first call left behind, returns the identical labeled sample (and
the identical post-call state). -/
theorem c8_deterministic_repeat (gauss : ℤ → ℕ → ℚ) (n_objects : ℕ)
    (positive_class_weight : ℚ) (seed : ℤ) (loc : ℚ) (g : GlobalRng)
    (p : (List ℚ × List ℚ) × GlobalRng)
    (h : get_distributions gauss n_objects positive_class_weight seed loc g = .ok p) :
    get_distributions gauss n_objects positive_class_weight seed loc p.2 = .ok p := h

/-- Witness for C8: a second call from the first call's final state `⟨7, 2⟩`
reproduces the same sample. -/
theorem c8_deterministic_repeat_witness :
    get_distributions gaussZ 2 (1/2) 7 10 ⟨7, 2⟩ = .ok (([0], [10]), ⟨7, 2⟩) :=
  c8_deterministic_repeat gaussZ 2 (1/2) 7 10 ⟨0, 0⟩ (([0], [10]), ⟨7, 2⟩)
    (get_distributions_sep10 7)

/-! Structure of the assembled labeled sample, and the degenerate case. -/

theorem zip_replicate_map {α β : Type} (b : α) (l : List β) :
    (List.replicate l.length b).zip l = l.map fun x => (b, x) := by
  induction l with
  | nil => rfl
  | cons x xs ih => simp [List.replicate_succ, ih]

theorem zip_labels (ld rd : List ℚ) :
    (sampleLabels (ld, rd)).zip (sampleScores (ld, rd))
      = ld.map (fun x => ((0 : ℕ), x)) ++ rd.map fun x => ((1 : ℕ), x) := by
  show (List.replicate ld.length 0 ++ List.replicate rd.length 1).zip (ld ++ rd) = _
  induction ld with
  | nil => simpa using zip_replicate_map (1 : ℕ) rd
  | cons a as ih => simpa [List.replicate_succ] using ih

theorem filter_one_map_zero (ld : List ℚ) :
    (ld.map fun x => ((0 : ℕ), x)).filter (fun t => t.1 == 1) = [] := by
  induction ld with
  | nil => rfl
  | cons a as ih => simp [List.filter_cons, ih]

theorem filter_one_map_one (rd : List ℚ) :
    (rd.map fun x => ((1 : ℕ), x)).filter (fun t => t.1 == 1)
      = rd.map fun x => ((1 : ℕ), x) := by
  induction rd with
  | nil => rfl
  | cons b bs ih => simp [List.filter_cons, ih]

theorem filter_zero_map_zero (ld : List ℚ) :
    (ld.map fun x => ((0 : ℕ), x)).filter (fun t => t.1 == 0)
      = ld.map fun x => ((0 : ℕ), x) := by
  induction ld with
  | nil => rfl
  | cons a as ih => simp [List.filter_cons, ih]

theorem filter_zero_map_one (rd : List ℚ) :
    (rd.map fun x => ((1 : ℕ), x)).filter (fun t => t.1 == 0) = [] := by
  induction rd with
  | nil => rfl
  | cons b bs ih => simp [List.filter_cons, ih]

/-- The positive-labeled scores of an assembled sample are exactly the right
(positive) score list. -/
theorem pos_of_sample (ld rd : List ℚ) :
    (((sampleLabels (ld, rd)).zip (sampleScores (ld, rd))).filter
      fun t => t.1 == 1).map Prod.snd = rd := by
  rw [zip_labels, List.filter_append, filter_one_map_zero, filter_one_map_one]
  simp [List.map_map, Function.comp]

/-- The negative-labeled scores of an assembled sample are exactly the left
(negative) score list. -/
theorem neg_of_sample (ld rd : List ℚ) :
    (((sampleLabels (ld, rd)).zip (sampleScores (ld, rd))).filter
      fun t => t.1 == 0).map Prod.snd = ld := by
  rw [zip_labels, List.filter_append, filter_zero_map_zero, filter_zero_map_one]
  simp [List.map_map, Function.comp]

/-- Closed form of the embedded AUC-ROC on an assembled sample: it fails on a
degenerate label set, and otherwise is the normalized rank statistic of the
positive scores against the negative scores. -/
theorem roc_auc_sample (ld rd : List ℚ) :
    roc_auc_score (sampleLabels (ld, rd)) (sampleScores (ld, rd))
      = if rd = [] ∨ ld = [] then .error .DegenerateLabelSet
        else .ok ((rd.map fun p => (ld.map fun q => pairScore p q).sum).sum
          / ((rd.length : ℚ) * (ld.length : ℚ))) := by
  simp only [roc_auc_score]
  rw [pos_of_sample, neg_of_sample]
  by_cases h : rd = [] ∨ ld = []
  · rw [if_pos h]
    rcases h with h | h <;> subst h <;> simp
  · rw [if_neg h]
    push_neg at h
    simp [List.isEmpty_iff, h.1, h.2]

/-- C5: the metric engine fails with the `DegenerateLabelSet` kind on every
labeled sample whose labels are all identical (no positives or no negatives,
e.g. produced with positiveWeight 0 or 1); in particular it never returns an
AUC value — 0, 0.5, 1 or otherwise — for such a sample. -/
theorem c5_degenerate_label_set_fails (ld rd : List ℚ) (h : ld = [] ∨ rd = []) :
    get_metrics (ld, rd) = .error .DegenerateLabelSet := by
  unfold get_metrics
  rw [roc_auc_sample]
  rcases h with h | h <;> subst h <;> simp [except_bind_error]

/-- Witness for C5: a sample with two negatives and no positives. -/
theorem c5_degenerate_label_set_fails_witness :
    get_metrics ([1, 2], []) = .error .DegenerateLabelSet :=
  c5_degenerate_label_set_fails [1, 2] [] (Or.inr rfl)

/-! Monotonicity of the rank statistic in the separation parameter. -/

theorem pairScore_mono (q : ℚ) {p p2 : ℚ} (h : p ≤ p2) :
    pairScore p q ≤ pairScore p2 q := by
  unfold pairScore
  split_ifs <;> first
    | linarith
    | exact absurd (le_antisymm (show p2 ≤ q by linarith) (show q ≤ p2 by linarith))
        (by assumption)

theorem forall₂_map_le {α : Type} (l : List α) (f g : α → ℚ)
    (h : ∀ x, x ∈ l → f x ≤ g x) :
    List.Forall₂ (· ≤ ·) (l.map f) (l.map g) := by
  induction l with
  | nil => exact List.Forall₂.nil
  | cons a as ih =>
    exact List.Forall₂.cons (h a (by simp)) (ih fun x hx => h x (by simp [hx]))

theorem sum_pairScore_mono (ld : List ℚ) {rd1 rd2 : List ℚ}
    (hf : List.Forall₂ (· ≤ ·) rd1 rd2) :
    List.Forall₂ (· ≤ ·)
      (rd1.map fun p => (ld.map fun q => pairScore p q).sum)
      (rd2.map fun p => (ld.map fun q => pairScore p q).sum) := by
  induction hf with
  | nil => exact List.Forall₂.nil
  | cons hxy hrest ih =>
    exact List.Forall₂.cons
      (List.Forall₂.sum_le_sum (forall₂_map_le ld _ _ fun q _ => pairScore_mono q hxy)) ih

/-- The embedded AUC-ROC is monotone under a pointwise increase of the
positive scores (same negatives, same number of positives). -/
theorem roc_auc_mono (ld rd1 rd2 : List ℚ) (hf : List.Forall₂ (· ≤ ·) rd1 rd2)
    (a1 a2 : ℚ)
    (h1 : roc_auc_score (sampleLabels (ld, rd1)) (sampleScores (ld, rd1)) = .ok a1)
    (h2 : roc_auc_score (sampleLabels (ld, rd2)) (sampleScores (ld, rd2)) = .ok a2) :
    a1 ≤ a2 := by
  rw [roc_auc_sample] at h1 h2
  by_cases hd : rd1 = [] ∨ ld = []
  · rw [if_pos hd] at h1
    exact Except.noConfusion h1
  · have hd2 : ¬(rd2 = [] ∨ ld = []) := by
      rcases not_or.mp hd with ⟨hr, hl⟩
      rintro (h0 | h0)
      · subst h0; cases hf; exact hr rfl
      · exact hl h0
    rw [if_neg hd] at h1
    rw [if_neg hd2] at h2
    injection h1 with e1
    injection h2 with e2
    rw [← e1, ← e2, ← hf.length_eq]
    rcases not_or.mp hd with ⟨hr, hl⟩
    have hdpos : (0 : ℚ) < (rd1.length : ℚ) * (ld.length : ℚ) := by
      have hr1 : 0 < rd1.length := List.length_pos_iff_ne_nil.mpr hr
      have hl1 : 0 < ld.length := List.length_pos_iff_ne_nil.mpr hl
      exact mul_pos (by exact_mod_cast hr1) (by exact_mod_cast hl1)
    rw [div_le_div_iff_of_pos_right hdpos]
    exact List.Forall₂.sum_le_sum (sum_pairScore_mono ld hf)

/-- A successful `get_metrics` call determines a successful `roc_auc_score`
call on the same assembled sample, returning the first component. -/
theorem get_metrics_ok_elim (data : List ℚ × List ℚ) (m : ℚ × ℚ)
    (h : get_metrics data = .ok m) :
    roc_auc_score (sampleLabels data) (sampleScores data) = .ok m.1 := by
  unfold get_metrics at h
  cases hr : roc_auc_score (sampleLabels data) (sampleScores data) with
  | error e => rw [hr, except_bind_error] at h; exact Except.noConfusion h
  | ok a => rw [hr, except_bind_ok] at h; injection h with h; rw [← h]

/-- C9: for a fixed size, positive weight and seed, and separations
`loc1 ≤ loc2`, whenever sampling and metric evaluation succeed at both
separations, the AUC-ROC at separation `loc2` is at least the AUC-ROC at
separation `loc1`. -/
theorem c9_auc_roc_monotone_in_separation (gauss : ℤ → ℕ → ℚ) (n_objects : ℕ)
    (positive_class_weight : ℚ) (seed : ℤ) (loc1 loc2 : ℚ) (g1 g2 : GlobalRng)
    (p1 p2 : (List ℚ × List ℚ) × GlobalRng) (m1 m2 : ℚ × ℚ)
    (hsep : loc1 ≤ loc2)
    (h1 : get_distributions gauss n_objects positive_class_weight seed loc1 g1 = .ok p1)
    (h2 : get_distributions gauss n_objects positive_class_weight seed loc2 g2 = .ok p2)
    (hm1 : get_metrics p1.1 = .ok m1)
    (hm2 : get_metrics p2.1 = .ok m2) :
    m1.1 ≤ m2.1 := by
  unfold get_distributions np_normal at h1 h2
  by_cases hc1 : pyInt ((n_objects : ℚ) * (1 - positive_class_weight)) < 0
  · rw [if_pos hc1, except_bind_error] at h1
    exact Except.noConfusion h1
  · rw [if_neg hc1] at h1 h2
    simp only [except_bind_ok] at h1 h2
    by_cases hc2 : pyInt ((n_objects : ℚ) * positive_class_weight) < 0
    · rw [if_pos hc2, except_bind_error] at h1
      exact Except.noConfusion h1
    · rw [if_neg hc2] at h1 h2
      simp only [except_bind_ok] at h1 h2
      injection h1 with e1
      injection h2 with e2
      subst e1
      subst e2
      have hr1 := get_metrics_ok_elim _ _ hm1
      have hr2 := get_metrics_ok_elim _ _ hm2
      dsimp only at hr1 hr2
      refine roc_auc_mono _ _ _ ?_ _ _ hr1 hr2
      exact forall₂_map_le _ _ _ fun x _ => add_le_add_right hsep _

/-- Witness for C9 at a concrete pair of separations 0 and 10. -/
theorem c9_auc_roc_monotone_in_separation_witness :
    (((1 : ℚ)/2, (1 : ℚ)/2) : ℚ × ℚ).1 ≤ (((1 : ℚ), (1 : ℚ)) : ℚ × ℚ).1 := by
  have hgd0 : get_distributions gaussZ 2 (1/2) 7 0 ⟨0, 0⟩ = .ok (([0], [0]), ⟨7, 2⟩) := by
    norm_num [get_distributions, np_normal, pyInt, gaussZ, except_bind_ok, List.range_succ]
  have hm0 : get_metrics ([0], [0]) = .ok (1/2, 1/2) := by
    norm_num [get_metrics, roc_auc_score, sampleLabels, sampleScores, pairScore,
      average_precision_score, thresholdsDesc, insertDesc, apAux, except_bind_ok,
      List.filter_cons, List.filter_nil]
  have hm10 : get_metrics ([0], [10]) = .ok (1, 1) := by
    norm_num [get_metrics, roc_auc_score, sampleLabels, sampleScores, pairScore,
      average_precision_score, thresholdsDesc, insertDesc, apAux, except_bind_ok,
      List.filter_cons, List.filter_nil]
  exact c9_auc_roc_monotone_in_separation gaussZ 2 (1/2) 7 0 10 ⟨0, 0⟩ ⟨0, 0⟩
    (([0], [0]), ⟨7, 2⟩) (([0], [10]), ⟨7, 2⟩) (1/2, 1/2) (1, 1)
    (by norm_num) hgd0 (get_distributions_sep10 7) hm0 hm10

/-- A concrete standard-normal stream whose draw at position `i` is `i`. -/
def gaussI : ℤ → ℕ → ℚ := fun _ i => (i : ℚ)

/-- Witness for C3 at size 4, weight 1/2, seed 3, separation 10. -/
theorem c3_sampler_draws_and_assembly_witness :
    ∃ n_neg n_pos : ℕ,
      (n_neg : ℤ) = ⌊((4 : ℕ) : ℚ) * (1 - 1/2)⌋ ∧
      (n_pos : ℤ) = ⌊((4 : ℕ) : ℚ) * (1/2 : ℚ)⌋ ∧
      get_distributions gaussI 4 (1/2) 3 10 ⟨9, 9⟩ =
        .ok ((((List.range n_neg).map fun i => 0 + 5 * gaussI 3 i),
              ((List.range n_pos).map fun j => 10 + 5 * gaussI 3 (n_neg + j))),
          ⟨3, n_neg + n_pos⟩) ∧
      sampleLabels (((List.range n_neg).map fun i => 0 + 5 * gaussI 3 i),
          ((List.range n_pos).map fun j => 10 + 5 * gaussI 3 (n_neg + j)))
        = List.replicate n_neg 0 ++ List.replicate n_pos 1 ∧
      sampleScores (((List.range n_neg).map fun i => 0 + 5 * gaussI 3 i),
          ((List.range n_pos).map fun j => 10 + 5 * gaussI 3 (n_neg + j)))
        = ((List.range n_neg).map fun i => 0 + 5 * gaussI 3 i)
          ++ ((List.range n_pos).map fun j => 10 + 5 * gaussI 3 (n_neg + j)) :=
  c3_sampler_draws_and_assembly gaussI 4 (1/2) 10 3 ⟨9, 9⟩
    (by norm_num) (by norm_num) (by norm_num)
